import Mathlib

/-!
Shallow embedding of the IceDeck V2 firmware control core
(`src/Firmware/main.py`): the debounced matrix scanner, the rotary-encoder
tracker, the keymap dispatch of the main loop, and the display scheduling
performed by the main loop.

Modelling conventions:
* Python `time.monotonic()` float timestamps are modelled as rationals
  (`ℚ`); the matrix scanner works in milliseconds
  (`time.monotonic() * 1000`), the main loop in seconds, so the two time
  arguments of a tick are passed separately, exactly as the two separate
  `time.monotonic()` calls in the source.
* A fallible hardware read is an `Except Unit` value; a Python exception
  raised by a read propagates (`scanE`) unless the source wraps the read
  in `try/except` (`EncoderController.update` does, `MatrixScanner.scan`
  does not).
* Mutable object state becomes explicit state records threaded through
  the functions (`MatrixState`, `EncoderState`, `LoopState`).
* Calls to `display.show_time` / `display.show_status` and
  `keyboard.write` are collected as event lists: they are the observable
  outputs of one loop iteration.
-/

namespace IceDeck

/-! ### Configuration constants (main.py lines 20-28) -/

def MATRIX_ROWS : Nat := 3

def MATRIX_COLS : Nat := 3

/-- `DEBOUNCE_MS = 20` (milliseconds). -/
def DEBOUNCE_MS : ℚ := 20

/-! ### MatrixScanner (main.py lines 53-120) -/

/-- The per-cell mutable state of `MatrixScanner`: `key_states` and
`last_press_time` (main.py lines 80-81), as total functions over
row/column indices. -/
structure MatrixState where
  key_states : Nat → Nat → Bool
  last_press_time : Nat → Nat → ℚ

/-- Fresh scanner state: all cells released, all timestamps 0
(main.py lines 80-81). -/
def initialMatrix : MatrixState :=
  ⟨fun _ _ => false, fun _ _ => 0⟩

/-- The debounce logic of `MatrixScanner.scan` for one cell
(main.py lines 104-115), given the raw read `raw`, the stored logical
state `pressed` and the stored `last` transition timestamp.  Returns the
new logical state, the new timestamp, and whether a `pressed_keys` entry
is appended for this cell. -/
def cellScan (db t : ℚ) (raw pressed : Bool) (last : ℚ) : Bool × ℚ × Bool :=
  if raw = true ∧ pressed = false then
    if t - last > db then (true, t, true) else (pressed, last, false)
  else if raw = false ∧ pressed = true then
    if t - last > db then (false, last, false) else (pressed, last, false)
  else (pressed, last, false)

/-- One inner-loop iteration of `scan` (main.py lines 101-115): apply
`cellScan` at cell `(r, c)` with raw read value `b`, updating the state
and appending to `pressed_keys` when the cell emits. -/
def scanStep (db t : ℚ) (b : Bool) (r c : Nat)
    (acc : MatrixState × List (Nat × Nat)) : MatrixState × List (Nat × Nat) :=
  let res := cellScan db t b (acc.1.key_states r c) (acc.1.last_press_time r c)
  (⟨fun r2 c2 => if r2 = r ∧ c2 = c then res.1 else acc.1.key_states r2 c2,
    fun r2 c2 => if r2 = r ∧ c2 = c then res.2.1 else acc.1.last_press_time r2 c2⟩,
   if res.2.2 then acc.2 ++ [(r, c)] else acc.2)

/-- The row loop of `scan` for one column `c` (main.py lines 101-115). -/
def scanRows (db t : ℚ) (raw : Nat → Nat → Bool) (c : Nat) :
    List Nat → MatrixState × List (Nat × Nat) → MatrixState × List (Nat × Nat)
  | [], acc => acc
  | r :: rs, acc => scanRows db t raw c rs (scanStep db t (raw r c) r c acc)

/-- The column loop of `scan` (main.py lines 93-118). -/
def scanCols (db t : ℚ) (raw : Nat → Nat → Bool) (R : Nat) :
    List Nat → MatrixState × List (Nat × Nat) → MatrixState × List (Nat × Nat)
  | [], acc => acc
  | c :: cs, acc => scanCols db t raw R cs (scanRows db t raw c (List.range R) acc)

/-- `MatrixScanner.scan` (main.py lines 85-120): scan every column and
row at time `t` (milliseconds), returning the updated per-cell state and
the `pressed_keys` list of `(row, col)` pairs. -/
def scan (R C : Nat) (db t : ℚ) (raw : Nat → Nat → Bool) (s : MatrixState) :
    MatrixState × List (Nat × Nat) :=
  scanCols db t raw R (List.range C) (s, [])

/-- A sequence of `scan` calls, each with its own timestamp and raw read
function; events of all scans are concatenated in order. -/
def scanRun (R C : Nat) (db : ℚ) :
    List (ℚ × (Nat → Nat → Bool)) → MatrixState → MatrixState × List (Nat × Nat)
  | [], s => (s, [])
  | p :: rest, s =>
    let first := scan R C db p.1 p.2 s
    let restRun := scanRun R C db rest first.1
    (restRun.1, first.2 ++ restRun.2)

/-- The row loop of `scan` with fallible row-pin reads: the source has
no `try/except` inside `MatrixScanner.scan`, so a raised read aborts the
whole scan (main.py lines 101-102). -/
def scanRowsE (db t : ℚ) (raw : Nat → Nat → Except Unit Bool) (c : Nat) :
    List Nat → MatrixState × List (Nat × Nat) →
      Except Unit (MatrixState × List (Nat × Nat))
  | [], acc => .ok acc
  | r :: rs, acc =>
    match raw r c with
    | .error e => .error e
    | .ok b => scanRowsE db t raw c rs (scanStep db t b r c acc)

/-- The column loop of `scan` with fallible reads. -/
def scanColsE (db t : ℚ) (raw : Nat → Nat → Except Unit Bool) (R : Nat) :
    List Nat → MatrixState × List (Nat × Nat) →
      Except Unit (MatrixState × List (Nat × Nat))
  | [], acc => .ok acc
  | c :: cs, acc =>
    match scanRowsE db t raw c (List.range R) acc with
    | .error e => .error e
    | .ok acc2 => scanColsE db t raw R cs acc2

/-- `MatrixScanner.scan` with fallible row-pin reads: any raised read
propagates out of the scan. -/
def scanE (R C : Nat) (db t : ℚ) (raw : Nat → Nat → Except Unit Bool)
    (s : MatrixState) : Except Unit (MatrixState × List (Nat × Nat)) :=
  scanColsE db t raw R (List.range C) (s, [])

/-! ### EncoderController (main.py lines 126-174) -/

/-- The mutable state of `EncoderController`: the `enabled` flag set at
construction (main.py lines 139, 143), `last_position` (line 132) and
`last_switch_state` (line 137). -/
structure EncoderState where
  enabled : Bool
  last_position : Int
  last_switch_state : Bool

/-- `EncoderController.update` (main.py lines 145-174) with fallible
hardware reads.  The whole body is inside `try/except`, so a raised
read never propagates: a failed position read leaves everything
unchanged and returns `(0, False)`; a failed switch read (after the
rotation part ran) keeps the computed rotation and reports no click. -/
def encoderUpdateE (s : EncoderState) (pos : Except Unit Int)
    (sw : Except Unit Bool) : EncoderState × Int × Bool :=
  if s.enabled = false then (s, 0, false)
  else
    match pos with
    | .error _ => (s, 0, false)
    | .ok current_position =>
      let rotation : Int :=
        if current_position > s.last_position then 1
        else if current_position < s.last_position then -1
        else 0
      let lp : Int :=
        if current_position > s.last_position then current_position
        else if current_position < s.last_position then current_position
        else s.last_position
      match sw with
      | .error _ => (⟨s.enabled, lp, s.last_switch_state⟩, rotation, false)
      | .ok current_switch =>
        let button_pressed : Bool :=
          if current_switch = false ∧ s.last_switch_state = true then true
          else false
        let ls : Bool :=
          if current_switch = false ∧ s.last_switch_state = true then current_switch
          else if current_switch = true ∧ s.last_switch_state = false then current_switch
          else s.last_switch_state
        (⟨s.enabled, lp, ls⟩, rotation, button_pressed)

/-- `EncoderController.update` with successful hardware reads. -/
def encoderUpdate (s : EncoderState) (p : Int) (b : Bool) :
    EncoderState × Int × Bool :=
  encoderUpdateE s (.ok p) (.ok b)

/-- A sequence of `update` calls fed raw `(position, switch-level)`
samples; returns the final state and the list of `(rotation, clicked)`
results in order. -/
def encoderRun : EncoderState → List (Int × Bool) →
    EncoderState × List (Int × Bool)
  | s, [] => (s, [])
  | s, i :: rest =>
    let u := encoderUpdate s i.1 i.2
    let restRun := encoderRun u.1 rest
    (restRun.1, (u.2.1, u.2.2) :: restRun.2)

/-- The encoder-value bookkeeping of the main loop (main.py lines
372-382): increment on clockwise rotation, decrement on
counter-clockwise, unchanged otherwise. -/
def applyRotation (cev rot : Int) : Int :=
  if rot > 0 then cev + 1 else if rot < 0 then cev - 1 else cev

/-- The trace of the main loop's `current_encoder_value` under a list of
reported rotations, one entry per poll. -/
def counterTrace : Int → List Int → List Int
  | _, [] => []
  | cev, r :: rs =>
    let cev2 := applyRotation cev r
    cev2 :: counterTrace cev2 rs

/-! ### Keymap and actions (main.py lines 286-302, 351-392) -/

/-- The key actions the firmware can send through `keyboard.write`:
the nine keymap entries (main.py lines 292-302) and the three encoder
actions (lines 374, 380, 386). -/
inductive Key where
  | MEDIA_PREV_TRACK : Key
  | MEDIA_PLAY_PAUSE : Key
  | MEDIA_NEXT_TRACK : Key
  | BRIGHTNESS_DOWN : Key
  | NO : Key
  | BRIGHTNESS_UP : Key
  | CTRL_ALT_M : Key
  | CTRL_ALT_D : Key
  | CTRL_ALT_SLASH : Key
  | AUDIO_VOL_UP : Key
  | AUDIO_VOL_DOWN : Key
  | AUDIO_MUTE : Key
deriving DecidableEq, Repr

/-- The string the loop stores as `last_key_pressed = f"{key}"`
(main.py line 360). -/
def keyLabel : Key → String
  | .MEDIA_PREV_TRACK => "KC.MEDIA_PREV_TRACK"
  | .MEDIA_PLAY_PAUSE => "KC.MEDIA_PLAY_PAUSE"
  | .MEDIA_NEXT_TRACK => "KC.MEDIA_NEXT_TRACK"
  | .BRIGHTNESS_DOWN => "KC.BRIGHTNESS_DOWN"
  | .NO => "KC.NO"
  | .BRIGHTNESS_UP => "KC.BRIGHTNESS_UP"
  | .CTRL_ALT_M => "KC.LCTRL(KC.LALT(KC.M))"
  | .CTRL_ALT_D => "KC.LCTRL(KC.LALT(KC.D))"
  | .CTRL_ALT_SLASH => "KC.LCTRL(KC.LALT(KC.SLASH))"
  | .AUDIO_VOL_UP => "KC.AUDIO_VOL_UP"
  | .AUDIO_VOL_DOWN => "KC.AUDIO_VOL_DOWN"
  | .AUDIO_MUTE => "KC.AUDIO_MUTE"

/-- The literal label passed to `display.show_status` on an encoder
click (main.py line 388). -/
def muteLabel : String := "MUTE"

/-- `keyboard.keymap` (main.py lines 292-302): a single layer of nine
entries, indexed by `row * MATRIX_COLS + col`. -/
def keymap : List (List Key) :=
  [[.MEDIA_PREV_TRACK, .MEDIA_PLAY_PAUSE, .MEDIA_NEXT_TRACK,
    .BRIGHTNESS_DOWN, .NO, .BRIGHTNESS_UP,
    .CTRL_ALT_M, .CTRL_ALT_D, .CTRL_ALT_SLASH]]

/-! ### Display calls and main loop (main.py lines 327-392) -/

/-- One call issued to the display by the loop: `display.show_time()`
(main.py line 345) or `display.show_status(layer, encoder_val,
last_key)` (lines 364, 388). -/
inductive DisplayEvent where
  | showTime : DisplayEvent
  | showStatus (layer : Nat) (encoder_val : Int) (last_key : Option String) : DisplayEvent
deriving DecidableEq, Repr

/-- The mutable state of one main-loop iteration: the module globals
`current_layer`, `current_encoder_value`, `last_key_pressed` (main.py
lines 318-320), the loop-local `last_time_update` (line 339), and the
two component states. -/
structure LoopState where
  current_layer : Nat
  current_encoder_value : Int
  last_key_pressed : Option String
  last_time_update : ℚ
  matrix : MatrixState
  encoder : EncoderState

/-- Loop state at entry to the main loop (main.py lines 309-321, 339):
layer 0, encoder value 0, no key pressed yet, fresh matrix. -/
def loopInit (t0 : ℚ) (enc : EncoderState) : LoopState :=
  ⟨0, 0, none, t0, initialMatrix, enc⟩

/-- The `for row, col in pressed_keys` body of the main loop (main.py
lines 351-366): for each pressed cell, when `current_layer` is in
range, look up the key, write it, remember its label, show the status
view, and rewind `last_time_update` by 0.8 s.  Returns the final
`(last_key_pressed, last_time_update)` pair, the display calls, and the
keys written, in order. -/
def handleKeys (layer : Nat) (cev : Int) (tc : ℚ) :
    List (Nat × Nat) → Option String × ℚ →
      (Option String × ℚ) × List DisplayEvent × List Key
  | [], st => (st, [], [])
  | rc :: rest, st =>
    if layer < keymap.length then
      let key := (keymap.getD layer []).getD (rc.1 * MATRIX_COLS + rc.2) Key.NO
      let res := handleKeys layer cev tc rest (some (keyLabel key), tc - (0.8 : ℚ))
      (res.1, DisplayEvent.showStatus layer cev (some (keyLabel key)) :: res.2.1,
       key :: res.2.2)
    else handleKeys layer cev tc rest st

/-- The part of one main-loop iteration after the matrix scan result
and the encoder update result are in hand (main.py lines 342-392): the
periodic clock render decision (lines 343-346), the pressed-key
dispatch (lines 351-366), and the encoder rotation/click dispatch
(lines 369-389).  The clock decision is computed against the incoming
`last_time_update`, exactly as in the source where it runs first. -/
def tickAfterScan (s : LoopState) (tc : ℚ) (m2 : MatrixState)
    (pressed : List (Nat × Nat)) (encRes : EncoderState × Int × Bool) :
    LoopState × List DisplayEvent × List Key :=
  let clockEv : List DisplayEvent :=
    if tc - s.last_time_update ≥ 1 then [DisplayEvent.showTime] else []
  let ltu0 : ℚ :=
    if tc - s.last_time_update ≥ 1 then tc else s.last_time_update
  let hk := handleKeys s.current_layer s.current_encoder_value tc pressed
    (s.last_key_pressed, ltu0)
  let rot := encRes.2.1
  let clicked := encRes.2.2
  let cev1 := applyRotation s.current_encoder_value rot
  let rotOut : List Key :=
    if rot > 0 then [Key.AUDIO_VOL_UP]
    else if rot < 0 then [Key.AUDIO_VOL_DOWN] else []
  let ltu2 : ℚ := if clicked then tc - (0.8 : ℚ) else hk.1.2
  let clickEv : List DisplayEvent :=
    if clicked then [DisplayEvent.showStatus 0 cev1 (some muteLabel)] else []
  let clickOut : List Key := if clicked then [Key.AUDIO_MUTE] else []
  (⟨s.current_layer, cev1, hk.1.1, ltu2, m2, encRes.1⟩,
   clockEv ++ hk.2.1 ++ clickEv,
   hk.2.2 ++ rotOut ++ clickOut)

/-- One full iteration of the `while True` loop (main.py lines 341-392)
with fault-free hardware reads: `tc` is `time.monotonic()` at the top
of the tick (seconds), `ts` is `time.monotonic() * 1000` inside the
scan (milliseconds), `raw` the row-pin reads, `pos`/`sw` the encoder
position and switch-level reads. -/
def tick (s : LoopState) (tc ts : ℚ) (raw : Nat → Nat → Bool)
    (pos : Int) (sw : Bool) : LoopState × List DisplayEvent × List Key :=
  let sc := scan MATRIX_ROWS MATRIX_COLS DEBOUNCE_MS ts raw s.matrix
  tickAfterScan s tc sc.1 sc.2 (encoderUpdate s.encoder pos sw)

/-- One full loop iteration with fallible hardware reads: a raised
matrix row-pin read propagates out of `MatrixScanner.scan` (no handler
in the loop body), while encoder read faults are absorbed inside
`EncoderController.update`. -/
def tickExc (s : LoopState) (tc ts : ℚ) (rawE : Nat → Nat → Except Unit Bool)
    (posE : Except Unit Int) (swE : Except Unit Bool) :
    Except Unit (LoopState × List DisplayEvent × List Key) :=
  match scanE MATRIX_ROWS MATRIX_COLS DEBOUNCE_MS ts rawE s.matrix with
  | .error e => .error e
  | .ok sc => .ok (tickAfterScan s tc sc.1 sc.2 (encoderUpdateE s.encoder posE swE))

/-- The hardware samples consumed by one loop iteration. -/
structure TickInput where
  tc : ℚ
  ts : ℚ
  raw : Nat → Nat → Except Unit Bool
  pos : Except Unit Int
  sw : Except Unit Bool

/-- The control loop run over a list of per-tick inputs.  An exception
escaping a tick propagates out of `main()` to the top-level handler
(main.py lines 398-406), which terminates the process: remaining ticks
never run, modelled as `Except.error`. -/
def runLoop : LoopState → List TickInput → Except Unit LoopState
  | s, [] => .ok s
  | s, i :: is =>
    match tickExc s i.tc i.ts i.raw i.pos i.sw with
    | .error e => .error e
    | .ok out => runLoop out.1 is

/-! ### Concrete inputs used by counterexamples and witnesses -/

/-- Raw reads with every cell electrically high. -/
def rawAllOn : Nat → Nat → Bool := fun _ _ => true

/-- Raw reads with every cell electrically low. -/
def rawAllOff : Nat → Nat → Bool := fun _ _ => false

/-- Raw reads with only cell (0, 0) high. -/
def rawCell00 : Nat → Nat → Bool := fun r c => r == 0 && c == 0

/-- Matrix state with every cell logically pressed, all accepted at
time 100 ms. -/
def heldAt100 : MatrixState := ⟨fun _ _ => true, fun _ _ => 100⟩

/-- Matrix state with cell (0, 0) logically pressed, timestamp 0. -/
def pressed00 : MatrixState := ⟨fun r c => r == 0 && c == 0, fun _ _ => 0⟩

/-- Matrix state with every cell logically pressed, timestamp 0. -/
def allPressed : MatrixState := ⟨fun _ _ => true, fun _ _ => 0⟩

/-- Loop state just before a key action at t = 100 s: clock refreshed
at 99.5 s, fresh matrix, encoder construction failed. -/
def c2actionState : LoopState :=
  ⟨0, 0, none, (99.5 : ℚ), initialMatrix, ⟨false, 0, true⟩⟩

/-- Fallible raw reads where every row-pin read raises. -/
def rawEFault : Nat → Nat → Except Unit Bool := fun _ _ => .error ()

/-- Fallible raw reads where every row-pin read succeeds with `False`. -/
def rawEOk : Nat → Nat → Except Unit Bool := fun _ _ => .ok false

/-- Loop state at startup with a working encoder. -/
def c4start : LoopState := loopInit 0 ⟨true, 0, true⟩

/-- Loop state on layer 5 (not the default 0) with a working encoder
whose button is currently up. -/
def c10clickState : LoopState := ⟨5, 0, none, 0, initialMatrix, ⟨true, 0, true⟩⟩

/-! ### Pointwise characterization of `scan` -/

theorem scanStep_key_other (db t : ℚ) (b : Bool) (r c : Nat)
    (acc : MatrixState × List (Nat × Nat)) (r2 c2 : Nat)
    (h : ¬(r2 = r ∧ c2 = c)) :
    (scanStep db t b r c acc).1.key_states r2 c2 = acc.1.key_states r2 c2 ∧
    (scanStep db t b r c acc).1.last_press_time r2 c2 = acc.1.last_press_time r2 c2 := by
  constructor <;> simp [scanStep, h]

theorem scanStep_key_at (db t : ℚ) (b : Bool) (r c : Nat)
    (acc : MatrixState × List (Nat × Nat)) :
    (scanStep db t b r c acc).1.key_states r c
      = (cellScan db t b (acc.1.key_states r c) (acc.1.last_press_time r c)).1 ∧
    (scanStep db t b r c acc).1.last_press_time r c
      = (cellScan db t b (acc.1.key_states r c) (acc.1.last_press_time r c)).2.1 := by
  constructor <;> simp [scanStep]

theorem scanStep_list (db t : ℚ) (b : Bool) (r c : Nat)
    (acc : MatrixState × List (Nat × Nat)) :
    (scanStep db t b r c acc).2 = acc.2 ++
      (if (cellScan db t b (acc.1.key_states r c) (acc.1.last_press_time r c)).2.2 = true
       then [(r, c)] else []) := by
  by_cases h : (cellScan db t b (acc.1.key_states r c) (acc.1.last_press_time r c)).2.2 = true
  · simp [scanStep, h]
  · simp [scanStep, h]

theorem scanRows_other (db t : ℚ) (raw : Nat → Nat → Bool) (c : Nat) :
    ∀ (rs : List Nat) (acc : MatrixState × List (Nat × Nat)) (r2 c2 : Nat),
      r2 ∉ rs ∨ c2 ≠ c →
      (scanRows db t raw c rs acc).1.key_states r2 c2 = acc.1.key_states r2 c2 ∧
      (scanRows db t raw c rs acc).1.last_press_time r2 c2 = acc.1.last_press_time r2 c2
  | [], _, _, _, _ => ⟨rfl, rfl⟩
  | r :: rs, acc, r2, c2, h => by
    have hstep : ¬(r2 = r ∧ c2 = c) := by
      rcases h with h | h
      · exact fun hc => h (hc.1 ▸ List.mem_cons_self r rs)
      · exact fun hc => h hc.2
    have hrest : r2 ∉ rs ∨ c2 ≠ c := by
      rcases h with h | h
      · exact Or.inl fun hm => h (List.mem_cons_of_mem _ hm)
      · exact Or.inr h
    have h1 := scanStep_key_other db t (raw r c) r c acc r2 c2 hstep
    have h2 := scanRows_other db t raw c rs (scanStep db t (raw r c) r c acc) r2 c2 hrest
    exact ⟨by simp only [scanRows]; rw [h2.1, h1.1],
           by simp only [scanRows]; rw [h2.2, h1.2]⟩

theorem scanRows_at (db t : ℚ) (raw : Nat → Nat → Bool) (c : Nat) :
    ∀ (rs : List Nat), rs.Nodup →
      ∀ (acc : MatrixState × List (Nat × Nat)) (r : Nat), r ∈ rs →
      (scanRows db t raw c rs acc).1.key_states r c
        = (cellScan db t (raw r c) (acc.1.key_states r c) (acc.1.last_press_time r c)).1 ∧
      (scanRows db t raw c rs acc).1.last_press_time r c
        = (cellScan db t (raw r c) (acc.1.key_states r c) (acc.1.last_press_time r c)).2.1
  | [], _, _, r, hr => absurd hr (List.not_mem_nil r)
  | a :: rs, hnd, acc, r, hr => by
    rcases List.mem_cons.mp hr with h | h
    · subst h
      have hnotin : r ∉ rs := (List.nodup_cons.mp hnd).1
      have hpres := scanRows_other db t raw c rs (scanStep db t (raw r c) r c acc) r c
        (Or.inl hnotin)
      have hat := scanStep_key_at db t (raw r c) r c acc
      exact ⟨by simp only [scanRows]; rw [hpres.1, hat.1],
             by simp only [scanRows]; rw [hpres.2, hat.2]⟩
    · have hne : ¬(r = a ∧ c = c) := by
        intro hc
        exact (List.nodup_cons.mp hnd).1 (hc.1 ▸ h)
      have hstep := scanStep_key_other db t (raw a c) a c acc r c hne
      have hrec := scanRows_at db t raw c rs (List.nodup_cons.mp hnd).2
        (scanStep db t (raw a c) a c acc) r h
      exact ⟨by simp only [scanRows]; rw [hrec.1, hstep.1, hstep.2],
             by simp only [scanRows]; rw [hrec.2, hstep.1, hstep.2]⟩

/-- Emission condition of a cell during a scan over state `s`. -/
def cellEmits (db t : ℚ) (raw : Nat → Nat → Bool) (s : MatrixState) (r c : Nat) : Bool :=
  (cellScan db t (raw r c) (s.key_states r c) (s.last_press_time r c)).2.2

theorem scanRows_list (db t : ℚ) (raw : Nat → Nat → Bool) (c : Nat) :
    ∀ (rs : List Nat), rs.Nodup →
      ∀ (acc : MatrixState × List (Nat × Nat)),
      (scanRows db t raw c rs acc).2 = acc.2 ++
        rs.filterMap (fun r => if cellEmits db t raw acc.1 r c = true then some (r, c) else none)
  | [], _, acc => by simp [scanRows]
  | a :: rs, hnd, acc => by
    have hrec := scanRows_list db t raw c rs (List.nodup_cons.mp hnd).2
      (scanStep db t (raw a c) a c acc)
    have hcong : ∀ r ∈ rs,
        (if cellEmits db t raw (scanStep db t (raw a c) a c acc).1 r c = true
         then some (r, c) else none)
          = (if cellEmits db t raw acc.1 r c = true then some (r, c) else none) := by
      intro r hr
      have hne : ¬(r = a ∧ c = c) := fun hc => (List.nodup_cons.mp hnd).1 (hc.1 ▸ hr)
      have hpres := scanStep_key_other db t (raw a c) a c acc r c hne
      simp only [cellEmits, hpres.1, hpres.2]
    have hlist := scanStep_list db t (raw a c) a c acc
    simp only [scanRows, hrec, List.filterMap_congr hcong, hlist, List.append_assoc]
    congr 1
    simp only [cellEmits, List.filterMap_cons]
    by_cases h : (cellScan db t (raw a c) (acc.1.key_states a c) (acc.1.last_press_time a c)).2.2 = true
    · simp [h]
    · simp [h]

theorem scanCols_other (db t : ℚ) (raw : Nat → Nat → Bool) (R : Nat) :
    ∀ (cs : List Nat) (acc : MatrixState × List (Nat × Nat)) (r2 c2 : Nat),
      c2 ∉ cs →
      (scanCols db t raw R cs acc).1.key_states r2 c2 = acc.1.key_states r2 c2 ∧
      (scanCols db t raw R cs acc).1.last_press_time r2 c2 = acc.1.last_press_time r2 c2
  | [], _, _, _, _ => ⟨rfl, rfl⟩
  | a :: cs, acc, r2, c2, h => by
    have hne : c2 ≠ a := fun he => h (he ▸ List.mem_cons_self a cs)
    have h1 := scanRows_other db t raw a (List.range R) acc r2 c2 (Or.inr hne)
    have h2 := scanCols_other db t raw R cs (scanRows db t raw a (List.range R) acc) r2 c2
      (fun hm => h (List.mem_cons_of_mem _ hm))
    exact ⟨by simp only [scanCols]; rw [h2.1, h1.1],
           by simp only [scanCols]; rw [h2.2, h1.2]⟩

theorem scanCols_at (db t : ℚ) (raw : Nat → Nat → Bool) (R : Nat) :
    ∀ (cs : List Nat), cs.Nodup →
      ∀ (acc : MatrixState × List (Nat × Nat)) (r c : Nat), r < R → c ∈ cs →
      (scanCols db t raw R cs acc).1.key_states r c
        = (cellScan db t (raw r c) (acc.1.key_states r c) (acc.1.last_press_time r c)).1 ∧
      (scanCols db t raw R cs acc).1.last_press_time r c
        = (cellScan db t (raw r c) (acc.1.key_states r c) (acc.1.last_press_time r c)).2.1
  | [], _, _, _, c, _, hc => absurd hc (List.not_mem_nil c)
  | a :: cs, hnd, acc, r, c, hr, hc => by
    rcases List.mem_cons.mp hc with h | h
    · subst h
      have hnotin : c ∉ cs := (List.nodup_cons.mp hnd).1
      have hpres := scanCols_other db t raw R cs (scanRows db t raw c (List.range R) acc) r c
        hnotin
      have hat := scanRows_at db t raw c (List.range R) (List.nodup_range R) acc r
        (List.mem_range.mpr hr)
      exact ⟨by simp only [scanCols]; rw [hpres.1, hat.1],
             by simp only [scanCols]; rw [hpres.2, hat.2]⟩
    · have hne : c ≠ a := fun he => (List.nodup_cons.mp hnd).1 (he ▸ h)
      have hstep := scanRows_other db t raw a (List.range R) acc r c (Or.inr hne)
      have hrec := scanCols_at db t raw R cs (List.nodup_cons.mp hnd).2
        (scanRows db t raw a (List.range R) acc) r c hr h
      exact ⟨by simp only [scanCols]; rw [hrec.1, hstep.1, hstep.2],
             by simp only [scanCols]; rw [hrec.2, hstep.1, hstep.2]⟩

theorem scanCols_list (db t : ℚ) (raw : Nat → Nat → Bool) (R : Nat) :
    ∀ (cs : List Nat), cs.Nodup →
      ∀ (acc : MatrixState × List (Nat × Nat)),
      (scanCols db t raw R cs acc).2 = acc.2 ++
        cs.flatMap (fun c => (List.range R).filterMap
          (fun r => if cellEmits db t raw acc.1 r c = true then some (r, c) else none))
  | [], _, acc => by simp [scanCols]
  | a :: cs, hnd, acc => by
    have hrec := scanCols_list db t raw R cs (List.nodup_cons.mp hnd).2
      (scanRows db t raw a (List.range R) acc)
    have hcong : ∀ c ∈ cs,
        (List.range R).filterMap
          (fun r => if cellEmits db t raw (scanRows db t raw a (List.range R) acc).1 r c = true
                    then some (r, c) else none)
          = (List.range R).filterMap
              (fun r => if cellEmits db t raw acc.1 r c = true then some (r, c) else none) := by
      intro c hc
      have hne : c ≠ a := fun he => (List.nodup_cons.mp hnd).1 (he ▸ hc)
      refine List.filterMap_congr (fun r _ => ?_)
      have hpres := scanRows_other db t raw a (List.range R) acc r c (Or.inr hne)
      simp only [cellEmits, hpres.1, hpres.2]
    have hlist := scanRows_list db t raw a (List.range R) (List.nodup_range R) acc
    simp only [scanCols, hrec, List.flatMap_congr hcong, hlist, List.append_assoc]
    congr 1

theorem scanCols_row_other (db t : ℚ) (raw : Nat → Nat → Bool) (R : Nat) :
    ∀ (cs : List Nat) (acc : MatrixState × List (Nat × Nat)) (r2 c2 : Nat),
      r2 ∉ List.range R →
      (scanCols db t raw R cs acc).1.key_states r2 c2 = acc.1.key_states r2 c2 ∧
      (scanCols db t raw R cs acc).1.last_press_time r2 c2 = acc.1.last_press_time r2 c2
  | [], _, _, _, _ => ⟨rfl, rfl⟩
  | a :: cs, acc, r2, c2, h => by
    have h1 := scanRows_other db t raw a (List.range R) acc r2 c2 (Or.inl h)
    have h2 := scanCols_row_other db t raw R cs (scanRows db t raw a (List.range R) acc) r2 c2 h
    exact ⟨by simp only [scanCols]; rw [h2.1, h1.1],
           by simp only [scanCols]; rw [h2.2, h1.2]⟩

theorem scan_cell_at (R C : Nat) (db t : ℚ) (raw : Nat → Nat → Bool) (s : MatrixState)
    (r c : Nat) (hr : r < R) (hc : c < C) :
    (scan R C db t raw s).1.key_states r c
      = (cellScan db t (raw r c) (s.key_states r c) (s.last_press_time r c)).1 ∧
    (scan R C db t raw s).1.last_press_time r c
      = (cellScan db t (raw r c) (s.key_states r c) (s.last_press_time r c)).2.1 :=
  scanCols_at db t raw R (List.range C) (List.nodup_range C) (s, []) r c hr
    (List.mem_range.mpr hc)

theorem scan_cell_untouched (R C : Nat) (db t : ℚ) (raw : Nat → Nat → Bool) (s : MatrixState)
    (r c : Nat) (h : ¬(r < R ∧ c < C)) :
    (scan R C db t raw s).1.key_states r c = s.key_states r c ∧
    (scan R C db t raw s).1.last_press_time r c = s.last_press_time r c := by
  by_cases hr : r < R
  · have hc : ¬ c < C := fun hcc => h ⟨hr, hcc⟩
    exact scanCols_other db t raw R (List.range C) (s, []) r c
      (fun hm => hc (List.mem_range.mp hm))
  · exact scanCols_row_other db t raw R (List.range C) (s, []) r c
      (fun hm => hr (List.mem_range.mp hm))

theorem scan_events (R C : Nat) (db t : ℚ) (raw : Nat → Nat → Bool) (s : MatrixState) :
    (scan R C db t raw s).2 = (List.range C).flatMap (fun c => (List.range R).filterMap
      (fun r => if cellEmits db t raw s r c = true then some (r, c) else none)) := by
  have h := scanCols_list db t raw R (List.range C) (List.nodup_range C) (s, [])
  simpa [scan] using h

theorem cellEmits_iff (db t : ℚ) (raw : Nat → Nat → Bool) (s : MatrixState) (r c : Nat) :
    cellEmits db t raw s r c = true ↔
      raw r c = true ∧ s.key_states r c = false ∧ db < t - s.last_press_time r c := by
  unfold cellEmits cellScan
  split_ifs with h1 h2 h3 h4 <;> simp_all

theorem scan_mem (R C : Nat) (db t : ℚ) (raw : Nat → Nat → Bool) (s : MatrixState)
    (r c : Nat) :
    (r, c) ∈ (scan R C db t raw s).2 ↔
      r < R ∧ c < C ∧ raw r c = true ∧ s.key_states r c = false ∧
        db < t - s.last_press_time r c := by
  rw [scan_events]
  simp only [List.mem_flatMap, List.mem_filterMap, List.mem_range,
    Option.ite_none_right_eq_some, Option.some.injEq, Prod.mk.injEq]
  constructor
  · rintro ⟨c2, hc2, r2, hr2, hem, rfl, rfl⟩
    exact ⟨hr2, hc2, (cellEmits_iff db t raw s r2 c2).mp hem⟩
  · rintro ⟨hr, hc, hcond⟩
    exact ⟨c, hc, r, hr, (cellEmits_iff db t raw s r c).mpr hcond, rfl, rfl⟩

theorem cellScan_frozen (db t : ℚ) (raw pressed : Bool) (last : ℚ)
    (h : t - last ≤ db) :
    cellScan db t raw pressed last = (pressed, last, false) := by
  have hnot : ¬ t - last > db := not_lt.mpr h
  unfold cellScan
  split_ifs <;> simp_all

theorem scan_cell_frozen (R C : Nat) (db t : ℚ) (raw : Nat → Nat → Bool) (s : MatrixState)
    (r c : Nat) (h : t - s.last_press_time r c ≤ db) :
    (scan R C db t raw s).1.key_states r c = s.key_states r c ∧
    (scan R C db t raw s).1.last_press_time r c = s.last_press_time r c ∧
    (r, c) ∉ (scan R C db t raw s).2 := by
  have hmem : (r, c) ∉ (scan R C db t raw s).2 := by
    rw [scan_mem]
    rintro ⟨_, _, _, _, hlt⟩
    exact absurd hlt (not_lt.mpr h)
  by_cases hin : r < R ∧ c < C
  · have hat := scan_cell_at R C db t raw s r c hin.1 hin.2
    have hcell := cellScan_frozen db t (raw r c) (s.key_states r c) (s.last_press_time r c) h
    exact ⟨by rw [hat.1, hcell], by rw [hat.2, hcell], hmem⟩
  · have hu := scan_cell_untouched R C db t raw s r c hin
    exact ⟨hu.1, hu.2, hmem⟩

theorem scanRun_cell_frozen (R C : Nat) (db : ℚ) :
    ∀ (inputs : List (ℚ × (Nat → Nat → Bool))) (s : MatrixState) (r c : Nat),
      (∀ p ∈ inputs, p.1 - s.last_press_time r c ≤ db) →
      (scanRun R C db inputs s).1.key_states r c = s.key_states r c ∧
      (scanRun R C db inputs s).1.last_press_time r c = s.last_press_time r c ∧
      (r, c) ∉ (scanRun R C db inputs s).2
  | [], s, r, c, _ => ⟨rfl, rfl, by simp [scanRun]⟩
  | p :: rest, s, r, c, h => by
    have h1 := scan_cell_frozen R C db p.1 p.2 s r c (h p (List.mem_cons_self p rest))
    have hrest : ∀ q ∈ rest, q.1 - (scan R C db p.1 p.2 s).1.last_press_time r c ≤ db := by
      intro q hq
      rw [h1.2.1]
      exact h q (List.mem_cons_of_mem _ hq)
    have h2 := scanRun_cell_frozen R C db rest (scan R C db p.1 p.2 s).1 r c hrest
    refine ⟨?_, ?_, ?_⟩
    · simp only [scanRun]
      rw [h2.1, h1.1]
    · simp only [scanRun]
      rw [h2.2.1, h1.2.1]
    · simp only [scanRun, List.mem_append]
      rintro (hm | hm)
      · exact h1.2.2 hm
      · exact h2.2.2 hm

/-! ### Encoder helper lemmas -/

theorem encoderUpdateE_enabled (s : EncoderState) (pos : Except Unit Int)
    (sw : Except Unit Bool) :
    (encoderUpdateE s pos sw).1.enabled = s.enabled := by
  unfold encoderUpdateE
  split_ifs with h
  · rfl
  · cases pos with
    | error e => rfl
    | ok p =>
      cases sw with
      | error e => rfl
      | ok b => rfl

theorem encoderUpdate_rotation_sign (s : EncoderState) (p : Int) (b : Bool)
    (h : s.enabled = true) :
    (encoderUpdate s p b).2.1 = Int.sign (p - s.last_position) := by
  unfold encoderUpdate encoderUpdateE
  rw [if_neg (by simp [h])]
  rcases lt_trichotomy p s.last_position with hlt | heq | hgt
  · have h1 : ¬ p > s.last_position := not_lt.mpr hlt.le
    have h2 : p - s.last_position < 0 := by omega
    simp only [h1, if_false, hlt, if_true, if_neg h1, if_pos hlt]
    exact (Int.sign_eq_neg_one_iff_neg.mpr h2).symm
  · subst heq
    simp
  · have h2 : 0 < p - s.last_position := by omega
    simp only [if_pos hgt]
    exact (Int.sign_eq_one_iff_pos.mpr h2).symm

theorem encoderUpdate_zero_delta (s : EncoderState) (b : Bool) (h : s.enabled = true) :
    (encoderUpdate s s.last_position b).1.last_position = s.last_position ∧
    (encoderUpdate s s.last_position b).2.1 = 0 := by
  unfold encoderUpdate encoderUpdateE
  rw [if_neg (by simp [h])]
  constructor <;> simp

theorem encoderUpdate_click (s : EncoderState) (p : Int) (b : Bool) (h : s.enabled = true) :
    (encoderUpdate s p b).2.2 = (!b && s.last_switch_state) ∧
    (encoderUpdate s p b).1.last_switch_state = b := by
  unfold encoderUpdate encoderUpdateE
  rw [if_neg (by simp [h])]
  cases b <;> cases hls : s.last_switch_state <;> simp_all

theorem encoderRun_clicks_low :
    ∀ (inputs : List (Int × Bool)) (s : EncoderState), s.enabled = true →
      s.last_switch_state = false → (∀ i ∈ inputs, i.2 = false) →
      (encoderRun s inputs).2.map Prod.snd = List.replicate inputs.length false
  | [], _, _, _, _ => by simp [encoderRun]
  | i :: rest, s, he, hl, hall => by
    have hi : i.2 = false := hall i (List.mem_cons_self i rest)
    have hc := encoderUpdate_click s i.1 i.2 he
    have he2 : (encoderUpdate s i.1 i.2).1.enabled = true := by
      simp only [encoderUpdate, encoderUpdateE_enabled]
      exact he
    have hl2 : (encoderUpdate s i.1 i.2).1.last_switch_state = false := by rw [hc.2, hi]
    have hclick : (encoderUpdate s i.1 i.2).2.2 = false := by
      rw [hc.1, hl]
      simp
    have hrec := encoderRun_clicks_low rest (encoderUpdate s i.1 i.2).1 he2 hl2
      (fun j hj => hall j (List.mem_cons_of_mem _ hj))
    simp only [encoderRun, List.map_cons, hrec, hclick, List.length_cons,
      List.replicate_succ]

theorem handleKeys_events (layer : Nat) (cev : Int) (tc : ℚ) :
    ∀ (pressed : List (Nat × Nat)) (st : Option String × ℚ),
      ∀ e ∈ (handleKeys layer cev tc pressed st).2.1,
        ∃ k : Key, e = DisplayEvent.showStatus layer cev (some (keyLabel k))
  | [], _, e, he => absurd he (List.not_mem_nil e)
  | rc :: rest, st, e, he => by
    by_cases h : layer < keymap.length
    · simp only [handleKeys, if_pos h, List.mem_cons] at he
      rcases he with he | he
      · exact ⟨_, he⟩
      · exact handleKeys_events layer cev tc rest _ e he
    · simp only [handleKeys, if_neg h] at he
      exact handleKeys_events layer cev tc rest st e he

theorem handleKeys_oob (layer : Nat) (cev : Int) (tc : ℚ) (h : keymap.length ≤ layer) :
    ∀ (pressed : List (Nat × Nat)) (st : Option String × ℚ),
      handleKeys layer cev tc pressed st = (st, [], [])
  | [], _ => rfl
  | rc :: rest, st => by
    simp only [handleKeys, if_neg (not_lt.mpr h)]
    exact handleKeys_oob layer cev tc h rest st

theorem keyLabel_ne_mute (k : Key) : keyLabel k ≠ muteLabel := by
  cases k <;> decide

theorem tick_events_eq (s : LoopState) (tc ts : ℚ) (raw : Nat → Nat → Bool)
    (pos : Int) (sw : Bool) :
    (tick s tc ts raw pos sw).2.1 =
      (if tc - s.last_time_update ≥ 1 then [DisplayEvent.showTime] else []) ++
      (handleKeys s.current_layer s.current_encoder_value tc
        (scan MATRIX_ROWS MATRIX_COLS DEBOUNCE_MS ts raw s.matrix).2
        (s.last_key_pressed,
         if tc - s.last_time_update ≥ 1 then tc else s.last_time_update)).2.1 ++
      (if (encoderUpdate s.encoder pos sw).2.2 then
        [DisplayEvent.showStatus 0
          (applyRotation s.current_encoder_value (encoderUpdate s.encoder pos sw).2.1)
          (some muteLabel)] else []) := rfl

theorem tick_outputs_eq (s : LoopState) (tc ts : ℚ) (raw : Nat → Nat → Bool)
    (pos : Int) (sw : Bool) :
    (tick s tc ts raw pos sw).2.2 =
      (handleKeys s.current_layer s.current_encoder_value tc
        (scan MATRIX_ROWS MATRIX_COLS DEBOUNCE_MS ts raw s.matrix).2
        (s.last_key_pressed,
         if tc - s.last_time_update ≥ 1 then tc else s.last_time_update)).2.2 ++
      (if (encoderUpdate s.encoder pos sw).2.1 > 0 then [Key.AUDIO_VOL_UP]
       else if (encoderUpdate s.encoder pos sw).2.1 < 0 then [Key.AUDIO_VOL_DOWN]
       else []) ++
      (if (encoderUpdate s.encoder pos sw).2.2 then [Key.AUDIO_MUTE] else []) := rfl

theorem scanRowsE_ok (db t : ℚ) (raw : Nat → Nat → Except Unit Bool) (c : Nat) :
    ∀ (rs : List Nat) (acc : MatrixState × List (Nat × Nat)),
      (∀ r ∈ rs, ∃ b, raw r c = Except.ok b) →
      ∃ out, scanRowsE db t raw c rs acc = Except.ok out
  | [], acc, _ => ⟨acc, rfl⟩
  | r :: rs, acc, h => by
    obtain ⟨b, hb⟩ := h r (List.mem_cons_self r rs)
    obtain ⟨out, hout⟩ := scanRowsE_ok db t raw c rs (scanStep db t b r c acc)
      (fun r2 h2 => h r2 (List.mem_cons_of_mem _ h2))
    refine ⟨out, ?_⟩
    simp only [scanRowsE, hb]
    exact hout

theorem scanColsE_ok (db t : ℚ) (raw : Nat → Nat → Except Unit Bool) (R : Nat) :
    ∀ (cs : List Nat) (acc : MatrixState × List (Nat × Nat)),
      (∀ c ∈ cs, ∀ r ∈ List.range R, ∃ b, raw r c = Except.ok b) →
      ∃ out, scanColsE db t raw R cs acc = Except.ok out
  | [], acc, _ => ⟨acc, rfl⟩
  | c :: cs, acc, h => by
    obtain ⟨acc2, hacc2⟩ := scanRowsE_ok db t raw c (List.range R) acc
      (h c (List.mem_cons_self c cs))
    obtain ⟨out, hout⟩ := scanColsE_ok db t raw R cs acc2
      (fun c2 h2 => h c2 (List.mem_cons_of_mem _ h2))
    refine ⟨out, ?_⟩
    simp only [scanColsE, hacc2]
    exact hout

theorem encoderUpdateE_pos_error (s : EncoderState) (sw : Except Unit Bool) :
    encoderUpdateE s (Except.error ()) sw = (s, 0, false) := by
  unfold encoderUpdateE
  split_ifs <;> rfl

theorem cellScan_release (db t last : ℚ) (h : t - last > db) :
    cellScan db t false true last = (false, last, false) := by
  simp [cellScan, h]

theorem cellScan_last_cases (db t : ℚ) (raw pressed : Bool) (last : ℚ) :
    (cellScan db t raw pressed last).2.1 = last ∨
    (raw = true ∧ pressed = false ∧ db < t - last ∧
      (cellScan db t raw pressed last).2.1 = t) := by
  unfold cellScan
  split_ifs with h1 h2 h3 h4
  · exact Or.inr ⟨h1.1, h1.2, h2, rfl⟩
  · exact Or.inl rfl
  · exact Or.inl rfl
  · exact Or.inl rfl
  · exact Or.inl rfl

/-! ### Claim theorems -/

set_option maxRecDepth 16000 in
/-- C1 counterexample: the claim "two raw transitions on the same cell
separated by less than the debounce window produce at most one accepted
logical transition" fails.  Cell (0, 0): a press accepted at t = 100 ms,
a release accepted at t = 125 ms (which does not update
`last_press_time`), and a press accepted again at t = 130 ms — the raw
release and the raw press are 5 ms < 20 ms apart, yet both transitions
are accepted: `pressed` flips twice within one debounce interval. -/
theorem c1_release_press_within_window_both_accepted :
    (scan 3 3 20 100 rawAllOn initialMatrix).1.key_states 0 0 = true ∧
    (scan 3 3 20 125 rawAllOff
      (scan 3 3 20 100 rawAllOn initialMatrix).1).1.key_states 0 0 = false ∧
    (scan 3 3 20 130 rawAllOn
      (scan 3 3 20 125 rawAllOff
        (scan 3 3 20 100 rawAllOn initialMatrix).1).1).1.key_states 0 0 = true ∧
    (130 : ℚ) - 125 < 20 := by
  refine ⟨?_, ?_, ?_, by norm_num⟩ <;>
    norm_num [scan, scanCols, scanRows, scanStep, cellScan, List.range_succ,
      initialMatrix, rawAllOn, rawAllOff]

/-- C1 (amended): while no more than the debounce window has elapsed
since a cell's stored `last_press_time` (which only accepted presses
update), the cell's debounced state is frozen: a single scan — and any
sequence of scans all within the window — leaves `pressed` and
`last_press_time` of that cell unchanged and emits no event for it.
Accepted releases do not restart the window, so a release and a later
press less than the window apart from each other can both be accepted
(only presses arm the suppression window). -/
theorem c1_cell_frozen_within_debounce_window (R C : Nat) (db : ℚ)
    (s : MatrixState) (r c : Nat) :
    (∀ (t : ℚ) (raw : Nat → Nat → Bool), t - s.last_press_time r c ≤ db →
      (scan R C db t raw s).1.key_states r c = s.key_states r c ∧
      (scan R C db t raw s).1.last_press_time r c = s.last_press_time r c ∧
      (r, c) ∉ (scan R C db t raw s).2) ∧
    (∀ inputs : List (ℚ × (Nat → Nat → Bool)),
      (∀ p ∈ inputs, p.1 - s.last_press_time r c ≤ db) →
      (scanRun R C db inputs s).1.key_states r c = s.key_states r c ∧
      (scanRun R C db inputs s).1.last_press_time r c = s.last_press_time r c ∧
      (r, c) ∉ (scanRun R C db inputs s).2) :=
  ⟨fun t raw h => scan_cell_frozen R C db t raw s r c h,
   fun inputs h => scanRun_cell_frozen R C db inputs s r c h⟩

/-- Witness for C1 (amended): with every cell pressed and accepted at
100 ms, two further scans at 110 ms and 115 ms (release then press
attempts) leave cell (0, 0) pressed and emit nothing for it. -/
theorem c1_cell_frozen_within_debounce_window_witness :
    (scanRun 3 3 20 [(110, rawAllOff), (115, rawAllOn)] heldAt100).1.key_states 0 0
      = heldAt100.key_states 0 0 ∧
    (0, 0) ∉ (scanRun 3 3 20 [(110, rawAllOff), (115, rawAllOn)] heldAt100).2 := by
  have h := (c1_cell_frozen_within_debounce_window 3 3 20 heldAt100 0 0).2
    [(110, rawAllOff), (115, rawAllOn)] (by
      intro p hp
      rcases List.mem_cons.mp hp with rfl | hp
      · norm_num [heldAt100]
      rcases List.mem_cons.mp hp with rfl | hp
      · norm_num [heldAt100]
      · exact absurd hp (List.not_mem_nil p))
  exact ⟨h.1, h.2.2⟩

/-- C2: the code rewinds `last_time_update` by 0.8 s when an action
occurs (main.py line 366, under the comment "Return to time after 2
seconds"), but against the 1.0 s clock threshold this makes the
periodic Clock render resume 0.2 s after the action, not 2 s after it:
a key action at t = 100 s is followed at t = 100.5 s — with no further
action events — by a Clock render, although only 0.5 s < 2 s have
elapsed. -/
theorem c2_clock_render_resumes_before_two_seconds :
    (tick c2actionState 100 100000 rawCell00 0 true).2.1
      = [DisplayEvent.showStatus 0 0 (some (keyLabel Key.MEDIA_PREV_TRACK))] ∧
    (tick c2actionState 100 100000 rawCell00 0 true).1.last_time_update
      = 100 - (0.8 : ℚ) ∧
    (tick (tick c2actionState 100 100000 rawCell00 0 true).1
      (100.5 : ℚ) 100500 rawAllOff 0 true).2.1 = [DisplayEvent.showTime] ∧
    (100.5 : ℚ) - 100 < 2 := by
  refine ⟨?_, ?_, ?_, by norm_num⟩ <;>
    norm_num [tick, tickAfterScan, handleKeys, applyRotation, scan, scanCols,
      scanRows, scanStep, cellScan, encoderUpdate, encoderUpdateE, keymap,
      keyLabel, List.range_succ, initialMatrix, c2actionState, rawCell00,
      rawAllOff, MATRIX_ROWS, MATRIX_COLS, DEBOUNCE_MS]

/-- C3 counterexample: the claim that `scan` returns a Released event
for every accepted release fails — the returned list never mentions
releases.  Cell (0, 0) is pressed with timestamp 0; a scan at t = 100
ms with all cells electrically low accepts the release (the debounced
state flips to false) yet returns the empty event list. -/
theorem c3_accepted_release_emits_no_event :
    pressed00.key_states 0 0 = true ∧
    (scan 3 3 20 100 rawAllOff pressed00).1.key_states 0 0 = false ∧
    (scan 3 3 20 100 rawAllOff pressed00).2 = [] := by
  refine ⟨rfl, ?_, ?_⟩ <;>
    norm_num [scan, scanCols, scanRows, scanStep, cellScan, List.range_succ,
      pressed00, rawAllOff]

/-- C3 (amended): `scan` returns `(row, col)` pairs — with no edge tag
— for exactly the cells whose accepted transition this tick is a
press: `(r, c)` is in the returned list iff `(r, c)` is a matrix cell,
its raw read is high, its stored debounced state is released, and the
debounce window has elapsed.  Accepted releases update the stored
state but contribute no event. -/
theorem c3_scan_events_are_exactly_accepted_presses (R C : Nat) (db t : ℚ)
    (raw : Nat → Nat → Bool) (s : MatrixState) (r c : Nat) :
    (r, c) ∈ (scan R C db t raw s).2 ↔
      r < R ∧ c < C ∧ raw r c = true ∧ s.key_states r c = false ∧
        db < t - s.last_press_time r c :=
  scan_mem R C db t raw s r c

/-- C4 counterexample: a transient hardware fault — a raised row-pin
read during the matrix scan — propagates out of
`MatrixScanner.scan` (which has no exception handling) and terminates
the control loop: the first tick fails and the second tick never
runs. -/
theorem c4_matrix_read_fault_terminates_loop :
    runLoop c4start
      [⟨10, 10000, rawEFault, .ok 0, .ok true⟩,
       ⟨11, 11000, rawEOk, .ok 0, .ok true⟩] = .error () := rfl

/-- C4 (amended): a tick whose matrix row-pin reads all succeed
completes regardless of encoder read faults, disabled devices, or
configuration state, and an encoder position-read fault is treated as
no change — but (per the counterexample) a matrix row-pin read fault
does terminate the loop, so only encoder faults, construction-time
device unavailability and configuration defects are non-fatal. -/
theorem c4_non_matrix_faults_do_not_terminate_tick (s : LoopState) (tc ts : ℚ)
    (rawE : Nat → Nat → Except Unit Bool) (posE : Except Unit Int)
    (swE : Except Unit Bool)
    (h : ∀ r < MATRIX_ROWS, ∀ c < MATRIX_COLS, ∃ b, rawE r c = Except.ok b) :
    (∃ out, tickExc s tc ts rawE posE swE = Except.ok out) ∧
    (∀ (s2 : EncoderState) (sw2 : Except Unit Bool),
      encoderUpdateE s2 (Except.error ()) sw2 = (s2, 0, false)) := by
  constructor
  · obtain ⟨sc, hsc⟩ := scanColsE_ok DEBOUNCE_MS ts rawE MATRIX_ROWS
      (List.range MATRIX_COLS) (s.matrix, [])
      (fun c hc r hr => h r (List.mem_range.mp hr) c (List.mem_range.mp hc))
    refine ⟨tickAfterScan s tc sc.1 sc.2 (encoderUpdateE s.encoder posE swE), ?_⟩
    simp only [tickExc, scanE, hsc]
  · exact fun s2 sw2 => encoderUpdateE_pos_error s2 sw2

/-- Witness for C4 (amended): with all matrix reads succeeding, a tick
whose encoder position and switch reads both raise still completes. -/
theorem c4_non_matrix_faults_do_not_terminate_tick_witness :
    ∃ out, tickExc c4start 10 10000 rawEOk (.error ()) (.error ()) = Except.ok out :=
  (c4_non_matrix_faults_do_not_terminate_tick c4start 10 10000 rawEOk
    (.error ()) (.error ()) (fun _ _ _ _ => ⟨false, rfl⟩)).1

/-- C5: the reported encoder rotation is exactly the sign of the
position delta; a zero delta updates nothing and reports rotation 0;
and positions 0→1→1→2 across four polls report rotations [0, +1, 0,
+1] (direction events [+1, 0, +1] over the three deltas) with the
loop's encoder-value counter tracing 0→1→1→2. -/
theorem c5_direction_is_sign_of_position_delta :
    (∀ (s : EncoderState) (p : Int) (b : Bool), s.enabled = true →
      (encoderUpdate s p b).2.1 = Int.sign (p - s.last_position) ∧
      (p = s.last_position →
        (encoderUpdate s p b).1.last_position = s.last_position ∧
        (encoderUpdate s p b).2.1 = 0)) ∧
    (encoderRun ⟨true, 0, true⟩ [(0, true), (1, true), (1, true), (2, true)]).2.map
      Prod.fst = [0, 1, 0, 1] ∧
    ((encoderRun ⟨true, 0, true⟩ [(0, true), (1, true), (1, true), (2, true)]).2.map
      Prod.fst).drop 1 = [1, 0, 1] ∧
    counterTrace 0 ((encoderRun ⟨true, 0, true⟩
      [(0, true), (1, true), (1, true), (2, true)]).2.map Prod.fst) = [0, 1, 1, 2] := by
  refine ⟨?_, by decide, by decide, by decide⟩

  intro s p b he
  refine ⟨encoderUpdate_rotation_sign s p b he, ?_⟩
  rintro rfl
  exact encoderUpdate_zero_delta s b he

/-- Witness for C5: a concrete poll at position 7 from stored position
5 reports rotation `sign(2) = 1`. -/
theorem c5_direction_is_sign_of_position_delta_witness :
    (encoderUpdate ⟨true, 5, true⟩ 7 true).2.1 = Int.sign ((7 : Int) - 5) :=
  (c5_direction_is_sign_of_position_delta.1 ⟨true, 5, true⟩ 7 true rfl).1

/-- C6: for every run of N ≥ 1 consecutive polls with the button level
asserted (the switch reads low, the pull-up idle level being high) from
a state whose previous poll left the level not asserted, exactly the
first poll reports `clicked = true` and all later polls of the run
report `clicked = false`; and the four-poll scenario
[up, down, down, up] reports clicked = [false, true, false, false]. -/
theorem c6_sustained_press_clicks_exactly_once :
    (∀ (s : EncoderState) (inputs : List (Int × Bool)), s.enabled = true →
      s.last_switch_state = true → inputs ≠ [] → (∀ i ∈ inputs, i.2 = false) →
      (encoderRun s inputs).2.map Prod.snd
        = true :: List.replicate (inputs.length - 1) false) ∧
    (encoderRun ⟨true, 0, true⟩ [(0, true), (0, false), (0, false), (0, true)]).2.map
      Prod.snd = [false, true, false, false] := by
  constructor
  · intro s inputs he hl hne hall
    rcases inputs with _ | ⟨i, rest⟩
    · exact absurd rfl hne
    · have hi : i.2 = false := hall i (List.mem_cons_self i rest)
      have hc := encoderUpdate_click s i.1 i.2 he
      have hclick : (encoderUpdate s i.1 i.2).2.2 = true := by
        rw [hc.1, hi, hl]
        rfl
      have he2 : (encoderUpdate s i.1 i.2).1.enabled = true := by
        simp only [encoderUpdate, encoderUpdateE_enabled]
        exact he
      have hl2 : (encoderUpdate s i.1 i.2).1.last_switch_state = false := by
        rw [hc.2, hi]
      have hrec := encoderRun_clicks_low rest (encoderUpdate s i.1 i.2).1 he2 hl2
        (fun j hj => hall j (List.mem_cons_of_mem _ hj))
      simp only [encoderRun, List.map_cons, hclick, hrec, List.length_cons,
        Nat.add_sub_cancel]
  · decide

/-- Witness for C6: a run of three polls with the switch held low from
an idle-high state clicks on the first poll only. -/
theorem c6_sustained_press_clicks_exactly_once_witness :
    (encoderRun ⟨true, 0, true⟩ [(0, false), (5, false), (5, false)]).2.map Prod.snd
      = true :: List.replicate 2 false :=
  c6_sustained_press_clicks_exactly_once.1 ⟨true, 0, true⟩
    [(0, false), (5, false), (5, false)] rfl rfl (by simp) (by decide)

/-- C7: when the active layer index is at or beyond the number of
keymap layers, the pressed-key dispatch of the main loop is a no-op:
it writes no key, issues no display call, and leaves
`last_key_pressed`/`last_time_update` unchanged — and consequently any
key written during such a tick comes from the encoder (volume or
mute), never from the keymap. -/
theorem c7_out_of_range_layer_resolves_to_noop (layer : Nat) (cev : Int) (tc : ℚ)
    (pressed : List (Nat × Nat)) (st : Option String × ℚ)
    (h : keymap.length ≤ layer) :
    handleKeys layer cev tc pressed st = (st, [], []) ∧
    (∀ (s : LoopState) (ts : ℚ) (raw : Nat → Nat → Bool) (pos : Int) (sw : Bool),
      keymap.length ≤ s.current_layer →
      ∀ k ∈ (tick s tc ts raw pos sw).2.2,
        k = Key.AUDIO_VOL_UP ∨ k = Key.AUDIO_VOL_DOWN ∨ k = Key.AUDIO_MUTE) := by
  constructor
  · exact handleKeys_oob layer cev tc h pressed st
  · intro s ts raw pos sw hs k hk
    rw [tick_outputs_eq] at hk
    rw [handleKeys_oob s.current_layer s.current_encoder_value tc hs] at hk
    rcases List.mem_append.mp hk with hk | hk
    · rcases List.mem_append.mp hk with hk | hk
      · exact absurd hk (List.not_mem_nil k)
      · split_ifs at hk with h1 h2
        · exact Or.inl (List.mem_singleton.mp hk)
        · exact Or.inr (Or.inl (List.mem_singleton.mp hk))
        · exact absurd hk (List.not_mem_nil k)
    · split_ifs at hk with h1
      · exact Or.inr (Or.inr (List.mem_singleton.mp hk))
      · exact absurd hk (List.not_mem_nil k)

/-- Witness for C7: layer index 1 is out of range for the single-layer
keymap, so dispatching two pressed cells does nothing. -/
theorem c7_out_of_range_layer_resolves_to_noop_witness :
    handleKeys 1 0 100 [(0, 0), (2, 2)] (none, 0) = ((none, 0), [], []) :=
  (c7_out_of_range_layer_resolves_to_noop 1 0 100 [(0, 0), (2, 2)] (none, 0)
    (by decide)).1

/-- C8: a disabled encoder (construction-time initialization failure)
reports `(0, false)` on every poll, touching neither its state nor the
hardware reads — the result is the same for failing reads — and the
disabled flag survives every update, so the state is permanent. -/
theorem c8_disabled_encoder_reports_zero_false_permanently (s : EncoderState)
    (posE : Except Unit Int) (swE : Except Unit Bool) (h : s.enabled = false) :
    encoderUpdateE s posE swE = (s, 0, false) ∧
    (∀ (p2 : Except Unit Int) (b2 : Except Unit Bool),
      (encoderUpdateE s p2 b2).1.enabled = s.enabled) := by
  constructor
  · unfold encoderUpdateE
    rw [if_pos h]
  · exact fun p2 b2 => encoderUpdateE_enabled s p2 b2

/-- Witness for C8: a disabled encoder state polled with a raised
position read and a successful switch read reports `(0, false)`. -/
theorem c8_disabled_encoder_reports_zero_false_permanently_witness :
    encoderUpdateE ⟨false, 3, true⟩ (.error ()) (.ok false)
      = (⟨false, 3, true⟩, 0, false) :=
  (c8_disabled_encoder_reports_zero_false_permanently ⟨false, 3, true⟩
    (.error ()) (.ok false) rfl).1

/-- C9: an accepted release flips the cell's debounced state to false
but leaves `last_press_time` unchanged; and whenever a scan changes a
cell's `last_press_time` at all, that scan accepted a press on the
cell (raw high, stored state released, window elapsed) and the new
timestamp is the scan time. -/
theorem c9_release_preserves_debounce_timestamp (R C : Nat) (db t : ℚ)
    (raw : Nat → Nat → Bool) (s : MatrixState) (r c : Nat)
    (hr : r < R) (hc : c < C) :
    ((raw r c = false ∧ s.key_states r c = true ∧ db < t - s.last_press_time r c) →
      (scan R C db t raw s).1.key_states r c = false ∧
      (scan R C db t raw s).1.last_press_time r c = s.last_press_time r c) ∧
    ((scan R C db t raw s).1.last_press_time r c ≠ s.last_press_time r c →
      raw r c = true ∧ s.key_states r c = false ∧ db < t - s.last_press_time r c ∧
      (scan R C db t raw s).1.last_press_time r c = t) := by
  have hat := scan_cell_at R C db t raw s r c hr hc
  constructor
  · rintro ⟨h1, h2, h3⟩
    rw [hat.1, hat.2, h1, h2, cellScan_release db t (s.last_press_time r c) h3]
    exact ⟨rfl, rfl⟩
  · intro hne
    rw [hat.2] at hne ⊢
    rcases cellScan_last_cases db t (raw r c) (s.key_states r c)
      (s.last_press_time r c) with hcase | hcase
    · exact absurd hcase hne
    · exact ⟨hcase.1, hcase.2.1, hcase.2.2.1, hcase.2.2.2⟩

/-- Witness for C9: with every cell pressed at timestamp 0, a scan at
100 ms with all cells low releases cell (0, 0) and keeps its
timestamp. -/
theorem c9_release_preserves_debounce_timestamp_witness :
    (scan 3 3 20 100 rawAllOff allPressed).1.key_states 0 0 = false ∧
    (scan 3 3 20 100 rawAllOff allPressed).1.last_press_time 0 0
      = allPressed.last_press_time 0 0 :=
  (c9_release_preserves_debounce_timestamp 3 3 20 100 rawAllOff allPressed 0 0
    (by norm_num) (by norm_num)).1 ⟨rfl, rfl, by norm_num [allPressed]⟩

/-- C10: whenever an encoder click dispatches the mute action, the
status view handed to the display carries the literal layer value 0 —
whatever the active layer is — while every non-mute (key-press) status
view carries the current active layer index. -/
theorem c10_mute_status_view_uses_literal_layer_zero (s : LoopState) (tc ts : ℚ)
    (raw : Nat → Nat → Bool) (pos : Int) (sw : Bool) :
    ((encoderUpdate s.encoder pos sw).2.2 = true →
      DisplayEvent.showStatus 0
        (applyRotation s.current_encoder_value (encoderUpdate s.encoder pos sw).2.1)
        (some muteLabel) ∈ (tick s tc ts raw pos sw).2.1) ∧
    (∀ (l : Nat) (v : Int) (k : Option String),
      DisplayEvent.showStatus l v k ∈ (tick s tc ts raw pos sw).2.1 →
      (k = some muteLabel → l = 0) ∧ (k ≠ some muteLabel → l = s.current_layer)) := by
  rw [tick_events_eq]
  constructor
  · intro hcl
    refine List.mem_append.mpr (Or.inr ?_)
    simp [hcl]
  · intro l v k hm
    rcases List.mem_append.mp hm with hm | hm
    · rcases List.mem_append.mp hm with hm | hm
      · split_ifs at hm
        · rw [List.mem_singleton] at hm
          exact absurd hm (by simp)
        · exact absurd hm (List.not_mem_nil _)
      · obtain ⟨k2, hk2⟩ := handleKeys_events s.current_layer s.current_encoder_value
          tc _ _ _ hm
        rw [DisplayEvent.showStatus.injEq] at hk2
        obtain ⟨rfl, rfl, rfl⟩ := hk2
        refine ⟨fun heq => ?_, fun _ => rfl⟩
        exact absurd (Option.some.inj heq) (keyLabel_ne_mute k2)
    · split_ifs at hm with h1
      · rw [List.mem_singleton] at hm
        rw [DisplayEvent.showStatus.injEq] at hm
        obtain ⟨rfl, rfl, rfl⟩ := hm
        exact ⟨fun _ => rfl, fun hne => absurd rfl hne⟩
      · exact absurd hm (List.not_mem_nil _)

/-- Witness for C10: on a tick whose encoder click fires while the
active layer is 5, the mute status view carries layer 0. -/
theorem c10_mute_status_view_uses_literal_layer_zero_witness :
    DisplayEvent.showStatus 0
      (applyRotation 0 (encoderUpdate ⟨true, 0, true⟩ 0 false).2.1)
      (some muteLabel) ∈ (tick c10clickState 50 50000 rawAllOff 0 false).2.1 :=
  (c10_mute_status_view_uses_literal_layer_zero c10clickState 50 50000 rawAllOff
    0 false).1 rfl

end IceDeck
